import Mathlib

/-!
# Codemind: the C++ type library `Lenguajes/cpp/Bibliotecas_Cpp`

A shallow embedding of the fourteen demo units of the library and the
properties of their operations.

* Integer values are mathematical integers (`Int`); every conversion to a
  fixed-width type is an explicit reduction modulo `2 ^ w`.
* An arithmetic expression whose operands are promoted to `int` is computed in
  `int`; when the exact result is not representable in `int` the embedding
  follows the compiled code, which keeps the low 32 bits of the exact result
  (two's complement wraparound; ISO C++ leaves this case undefined). No
  operation of the library fails: every result is a value (`some`).
* Module-level variables that a routine writes are fields of an explicit state.
-/

namespace Codemind

/-! ## Integer types -/

/-- The mainstream data models. They agree on the width of every type used by
the library except `unsigned long` and `size_t`. -/
inductive DataModel where
  | ILP32
  | LLP64
  | LP64

/-- Width of `signed char`. -/
def SCHAR_BITS : Nat := 8

/-- Width of `unsigned short`. -/
def USHRT_BITS : Nat := 16

/-- Width of `char16_t`. -/
def CHAR16_BITS : Nat := 16

/-- Width of `char32_t`. -/
def CHAR32_BITS : Nat := 32

/-- Width of `int` and of `unsigned int`. -/
def INT_BITS : Nat := 32

/-- Width of `unsigned long long`. -/
def ULLONG_BITS : Nat := 64

/-- Width of `unsigned long` in each data model. -/
def DataModel.ulong_bits : DataModel → Nat
  | DataModel.ILP32 => 32
  | DataModel.LLP64 => 32
  | DataModel.LP64 => 64

/-- Width of `size_t` in each data model. -/
def DataModel.size_bits : DataModel → Nat
  | DataModel.ILP32 => 32
  | DataModel.LLP64 => 64
  | DataModel.LP64 => 64

/-- Largest value of `int`. -/
def INT_MAX : Int := 2 ^ (INT_BITS - 1) - 1

/-- Smallest value of `int`. -/
def INT_MIN : Int := -(2 ^ (INT_BITS - 1))

/-- Conversion of an integer value to an unsigned type of `w` bits. -/
def to_unsigned (w : Nat) (r : Int) : Int :=
  r % 2 ^ w

/-- Conversion of an integer value to a signed type of `w` bits: the value of
the type congruent to `r` modulo `2 ^ w`. -/
def to_signed (w : Nat) (r : Int) : Int :=
  (r + 2 ^ (w - 1)) % 2 ^ w - 2 ^ (w - 1)

/-- Result of an arithmetic operator evaluated in `int` with exact value `r`:
the value itself when `int` can represent it; otherwise the compiled code keeps
the low `INT_BITS` bits of the exact result, which is the value of `int`
congruent to `r` modulo `2 ^ INT_BITS` (ISO C++ leaves this case undefined). -/
def int_result (r : Int) : Option Int :=
  if INT_MIN ≤ r ∧ r ≤ INT_MAX then some r else some (to_signed INT_BITS r)

/-- Value of `return a op b;` in a function whose parameters and result have an
unsigned type of `w` bits. A type narrower than `int` is promoted to `int`, the
operator is evaluated there and the result is converted back on return; a type
at least as wide as `int` is evaluated modulo `2 ^ w`. -/
def unsigned_return (w : Nat) (op : Int → Int → Int) (a b : Int) : Option Int :=
  if w < INT_BITS then (int_result (op a b)).map (to_unsigned w)
  else some (to_unsigned w (op a b))

/-- Value of `return a op b;` in a function whose parameters and result have
type `signed char`: both operands are promoted to `int`, the operator is
evaluated there and the result is converted back on return. -/
def signed_char_return (op : Int → Int → Int) (a b : Int) : Option Int :=
  (int_result (op a b)).map (to_signed SCHAR_BITS)

/-! ## The integer units -/

namespace char16_t

/-- Models `char16_t u16char = 0;` -/
def u16char : Int := 0

/-- Models `char16_t u16letter = 1;` -/
def u16letter : Int := 1

/-- Models `char16_t sumar_char16_t(char16_t a, char16_t b) { return a + b; }` -/
def sumar_char16_t (a b : Int) : Option Int :=
  unsigned_return CHAR16_BITS (fun x y => x + y) a b

/-- Models `char16_t multiplicar_char16_t(char16_t a, char16_t b) { return a * b; }` -/
def multiplicar_char16_t (a b : Int) : Option Int :=
  unsigned_return CHAR16_BITS (fun x y => x * y) a b

end char16_t

namespace char32_t

/-- Models `char32_t u32char = 0;` -/
def u32char : Int := 0

/-- Models `char32_t u32letter = 1;` -/
def u32letter : Int := 1

/-- Models `char32_t sumar_char32_t(char32_t a, char32_t b) { return a + b; }` -/
def sumar_char32_t (a b : Int) : Option Int :=
  unsigned_return CHAR32_BITS (fun x y => x + y) a b

/-- Models `char32_t multiplicar_char32_t(char32_t a, char32_t b) { return a * b; }` -/
def multiplicar_char32_t (a b : Int) : Option Int :=
  unsigned_return CHAR32_BITS (fun x y => x * y) a b

end char32_t

namespace signed_char

/-- Models `signed char sc = 0;` -/
def sc : Int := 0

/-- Models `signed char offset = 1;` -/
def offset : Int := 1

/-- Models `signed char sumar_signed char(signed char a, signed char b) { return a + b; }` -/
def sumar_signed_char (a b : Int) : Option Int :=
  signed_char_return (fun x y => x + y) a b

/-- Models `signed char multiplicar_signed char(signed char a, signed char b) { return a * b; }` -/
def multiplicar_signed_char (a b : Int) : Option Int :=
  signed_char_return (fun x y => x * y) a b

end signed_char

namespace size_t

/-- Models `size_t size = 0;` -/
def size : Int := 0

/-- Models `size_t length = 1;` -/
def length : Int := 1

/-- Models `size_t sumar_size_t(size_t a, size_t b) { return a + b; }` -/
def sumar_size_t (M : DataModel) (a b : Int) : Option Int :=
  unsigned_return M.size_bits (fun x y => x + y) a b

/-- Models `size_t multiplicar_size_t(size_t a, size_t b) { return a * b; }` -/
def multiplicar_size_t (M : DataModel) (a b : Int) : Option Int :=
  unsigned_return M.size_bits (fun x y => x * y) a b

end size_t

namespace unsigned_int

/-- Models `unsigned int uid = 0;` -/
def uid : Int := 0

/-- Models `unsigned int len = 1;` -/
def len : Int := 1

/-- Models `unsigned int sumar_unsigned int(unsigned int a, unsigned int b) { return a + b; }` -/
def sumar_unsigned_int (a b : Int) : Option Int :=
  unsigned_return INT_BITS (fun x y => x + y) a b

/-- Models `unsigned int multiplicar_unsigned int(unsigned int a, unsigned int b) { return a * b; }` -/
def multiplicar_unsigned_int (a b : Int) : Option Int :=
  unsigned_return INT_BITS (fun x y => x * y) a b

end unsigned_int

namespace unsigned_long

/-- Models `unsigned long utime = 0;` -/
def utime : Int := 0

/-- Models `unsigned long usize = 1;` -/
def usize : Int := 1

/-- Models `unsigned long sumar_unsigned long(unsigned long a, unsigned long b) { return a + b; }` -/
def sumar_unsigned_long (M : DataModel) (a b : Int) : Option Int :=
  unsigned_return M.ulong_bits (fun x y => x + y) a b

/-- Models `unsigned long multiplicar_unsigned long(unsigned long a, unsigned long b) { return a * b; }` -/
def multiplicar_unsigned_long (M : DataModel) (a b : Int) : Option Int :=
  unsigned_return M.ulong_bits (fun x y => x * y) a b

end unsigned_long

namespace unsigned_long_long

/-- Models `unsigned long long ullcount = 0;` -/
def ullcount : Int := 0

/-- Models `unsigned long long ullindex = 1;` -/
def ullindex : Int := 1

/-- Models `unsigned long long sumar_unsigned long long(unsigned long long a, unsigned long long b) { return a + b; }` -/
def sumar_unsigned_long_long (a b : Int) : Option Int :=
  unsigned_return ULLONG_BITS (fun x y => x + y) a b

/-- Models `unsigned long long multiplicar_unsigned long long(unsigned long long a, unsigned long long b) { return a * b; }` -/
def multiplicar_unsigned_long_long (a b : Int) : Option Int :=
  unsigned_return ULLONG_BITS (fun x y => x * y) a b

end unsigned_long_long

namespace unsigned_short

/-- Models `unsigned short usmall = 0;` -/
def usmall : Int := 0

/-- Models `unsigned short ushort = 1;` -/
def ushort : Int := 1

/-- Models `unsigned short sumar_unsigned short(unsigned short a, unsigned short b) { return a + b; }` -/
def sumar_unsigned_short (a b : Int) : Option Int :=
  unsigned_return USHRT_BITS (fun x y => x + y) a b

/-- Models `unsigned short multiplicar_unsigned short(unsigned short a, unsigned short b) { return a * b; }` -/
def multiplicar_unsigned_short (a b : Int) : Option Int :=
  unsigned_return USHRT_BITS (fun x y => x * y) a b

end unsigned_short

/-! ## The catalogue of integer units -/

/-- The integer units of the library, one per source file. -/
inductive IntUnit where
  | char16_t
  | char32_t
  | signed_char
  | size_t
  | unsigned_int
  | unsigned_long
  | unsigned_long_long
  | unsigned_short

/-- Whether the type of the unit is unsigned. -/
def IntUnit.is_unsigned : IntUnit → Bool
  | IntUnit.signed_char => false
  | _ => true

/-- Width in bits of the type of the unit. -/
def IntUnit.bits (M : DataModel) : IntUnit → Nat
  | IntUnit.char16_t => CHAR16_BITS
  | IntUnit.char32_t => CHAR32_BITS
  | IntUnit.signed_char => SCHAR_BITS
  | IntUnit.size_t => M.size_bits
  | IntUnit.unsigned_int => INT_BITS
  | IntUnit.unsigned_long => M.ulong_bits
  | IntUnit.unsigned_long_long => ULLONG_BITS
  | IntUnit.unsigned_short => USHRT_BITS

/-- The values of the type of the unit. -/
def IntUnit.has_type (M : DataModel) (u : IntUnit) (x : Int) : Prop :=
  if u.is_unsigned then 0 ≤ x ∧ x < 2 ^ u.bits M
  else -(2 ^ (u.bits M - 1)) ≤ x ∧ x < 2 ^ (u.bits M - 1)

/-- Membership in the type of a unit is decidable. -/
instance IntUnit.has_type_decidable (M : DataModel) (u : IntUnit) (x : Int) :
    Decidable (u.has_type M x) := by
  unfold IntUnit.has_type
  infer_instance

/-- The first module-level value of the unit. -/
def IntUnit.base : IntUnit → Int
  | IntUnit.char16_t => char16_t.u16char
  | IntUnit.char32_t => char32_t.u32char
  | IntUnit.signed_char => signed_char.sc
  | IntUnit.size_t => size_t.size
  | IntUnit.unsigned_int => unsigned_int.uid
  | IntUnit.unsigned_long => unsigned_long.utime
  | IntUnit.unsigned_long_long => unsigned_long_long.ullcount
  | IntUnit.unsigned_short => unsigned_short.usmall

/-- The second module-level value of the unit. -/
def IntUnit.increment : IntUnit → Int
  | IntUnit.char16_t => char16_t.u16letter
  | IntUnit.char32_t => char32_t.u32letter
  | IntUnit.signed_char => signed_char.offset
  | IntUnit.size_t => size_t.length
  | IntUnit.unsigned_int => unsigned_int.len
  | IntUnit.unsigned_long => unsigned_long.usize
  | IntUnit.unsigned_long_long => unsigned_long_long.ullindex
  | IntUnit.unsigned_short => unsigned_short.ushort

/-- The `sumar_T` function of the unit. -/
def IntUnit.sumar (M : DataModel) : IntUnit → Int → Int → Option Int
  | IntUnit.char16_t => char16_t.sumar_char16_t
  | IntUnit.char32_t => char32_t.sumar_char32_t
  | IntUnit.signed_char => signed_char.sumar_signed_char
  | IntUnit.size_t => size_t.sumar_size_t M
  | IntUnit.unsigned_int => unsigned_int.sumar_unsigned_int
  | IntUnit.unsigned_long => unsigned_long.sumar_unsigned_long M
  | IntUnit.unsigned_long_long => unsigned_long_long.sumar_unsigned_long_long
  | IntUnit.unsigned_short => unsigned_short.sumar_unsigned_short

/-- The `multiplicar_T` function of the unit. -/
def IntUnit.multiplicar (M : DataModel) : IntUnit → Int → Int → Option Int
  | IntUnit.char16_t => char16_t.multiplicar_char16_t
  | IntUnit.char32_t => char32_t.multiplicar_char32_t
  | IntUnit.signed_char => signed_char.multiplicar_signed_char
  | IntUnit.size_t => size_t.multiplicar_size_t M
  | IntUnit.unsigned_int => unsigned_int.multiplicar_unsigned_int
  | IntUnit.unsigned_long => unsigned_long.multiplicar_unsigned_long M
  | IntUnit.unsigned_long_long => unsigned_long_long.multiplicar_unsigned_long_long
  | IntUnit.unsigned_short => unsigned_short.multiplicar_unsigned_short

/-! ## The long double unit -/

/-- The formats that implement `long double` on mainstream targets. -/
inductive LongDoubleFormat where
  | binary64
  | x87_extended
  | binary128

/-- Number of significant bits of the format. -/
def LongDoubleFormat.precision : LongDoubleFormat → Nat
  | LongDoubleFormat.binary64 => 53
  | LongDoubleFormat.x87_extended => 64
  | LongDoubleFormat.binary128 => 113

/-- Nearest integer to `q`, ties to the even one. -/
def round_half_even (q : ℚ) : Int :=
  if q - ⌊q⌋ < 1 / 2 then ⌊q⌋
  else if 1 / 2 < q - ⌊q⌋ then ⌊q⌋ + 1
  else if ⌊q⌋ % 2 = 0 then ⌊q⌋
  else ⌊q⌋ + 1

/-- Rounding of the exact result `x` of an operation to the format (round to
nearest, ties to even): `x` is scaled by the unit in the last place of its
binade, rounded to an integer and scaled back. Finite values only; the exponent
range of the format is not bounded. -/
def fl_round (F : LongDoubleFormat) (x : ℚ) : ℚ :=
  if x = 0 then 0
  else round_half_even (x / 2 ^ (Int.log 2 |x| - (F.precision : Int) + 1))
    * 2 ^ (Int.log 2 |x| - (F.precision : Int) + 1)

namespace long_double

/-- Models `long double precisa = 0;` -/
def precisa : ℚ := 0

/-- Models `long double ld = 1;` -/
def ld : ℚ := 1

/-- Models `long double sumar_long double(long double a, long double b) { return a + b; }` -/
def sumar_long_double (F : LongDoubleFormat) (a b : ℚ) : ℚ :=
  fl_round F (a + b)

/-- Models `long double multiplicar_long double(long double a, long double b) { return a * b; }` -/
def multiplicar_long_double (F : LongDoubleFormat) (a b : ℚ) : ℚ :=
  fl_round F (a * b)

end long_double

/-! ## The text units -/

namespace std_string

/-- Models `std::string name = std::string("name");` -/
def name : String := "name"

/-- Models `std::string route = std::string("route");` -/
def route : String := "route"

/-- Models `std::string concatenar(const std::string& a, const std::string& b) { return a + b; }` -/
def concatenar (a b : String) : String :=
  a ++ b

end std_string

namespace std_wstring

/-- Models `std::wstring wname = std::wstring("wname");` -/
def wname : String := "wname"

/-- Models `std::wstring wtext = std::wstring("wtext");` -/
def wtext : String := "wtext"

/-- Models `std::wstring concatenar(const std::wstring& a, const std::wstring& b) { return a + b; }` -/
def concatenar (a b : String) : String :=
  a ++ b

end std_wstring

namespace string

/-- Models `string nombre = string("nombre");` -/
def nombre : String := "nombre"

/-- Models `string path = string("path");` -/
def path : String := "path"

/-- Models `string concatenar(const string& a, const string& b) { return a + b; }` -/
def concatenar (a b : String) : String :=
  a ++ b

end string

/-- The string `w` written `n` times in a row. -/
def repeated (w : String) : Nat → String
  | 0 => ""
  | n + 1 => w ++ repeated w n

/-! ## Console output of an `int` -/

/-- The character of the decimal digit `d`. -/
def digit (d : Nat) : Char :=
  Char.ofNat (48 + d)

/-- Decimal digits of `n`, most significant first, using at most `fuel` digits. -/
def nat_digits : Nat → Nat → List Char
  | 0, _ => []
  | fuel + 1, n =>
    if n < 10 then [digit n] else nat_digits fuel (n / 10) ++ [digit (n % 10)]

/-- Text written by `std::cout << x` for an `int` under the default format
flags: the decimal form, with a leading minus sign for a negative value. The
fuel given to `nat_digits` exceeds the number of digits. -/
def decimal (x : Int) : String :=
  match x with
  | Int.ofNat n => String.mk (nat_digits (n + 1) n)
  | Int.negSucc n => "-" ++ String.mk (nat_digits (n + 2) (n + 1))

/-- The number that a list of decimal digit characters denotes. -/
def digits_value (l : List Char) : Nat :=
  l.foldl (fun acc c => 10 * acc + (c.toNat - 48)) 0

/-- Models `push_back` of `std::vector<int>` and `std::list<int>`: the element
is appended at the end. -/
def push_back (v : List Int) (x : Int) : List Int :=
  v ++ [x]

/-! ## The container units -/

namespace vector

/-- State of the unit: the module-level `std::vector<int> datos` and the
characters written to standard output so far. -/
structure State where
  datos : List Int
  cout : String

/-- State at program start: `datos` is default-constructed, nothing written. -/
def initial : State :=
  State.mk [] ""

/-- Models `void fill_datos()`: three `push_back` calls on `datos`. -/
def fill_datos (σ : State) : State :=
  State.mk (push_back (push_back (push_back σ.datos 1) 2) 3) σ.cout

/-- Models `void print_datos()`: the range-for loop writes each element and a
space, then `std::endl` writes the line terminator. -/
def print_datos (σ : State) : State :=
  State.mk σ.datos (σ.datos.foldl (fun out x => out ++ decimal x ++ " ") σ.cout ++ "\n")

end vector

namespace list

/-- State of the unit: the module-level `std::list<int> lista` and the
characters written to standard output so far. -/
structure State where
  lista : List Int
  cout : String

/-- State at program start: `lista` is default-constructed, nothing written. -/
def initial : State :=
  State.mk [] ""

/-- Models `void fill_lista()`: two `push_back` calls on `lista`. -/
def fill_lista (σ : State) : State :=
  State.mk (push_back (push_back σ.lista 10) 20) σ.cout

/-- Models `void print_lista()`: the range-for loop writes each element and a
space, then `std::endl` writes the line terminator. -/
def print_lista (σ : State) : State :=
  State.mk σ.lista (σ.lista.foldl (fun out x => out ++ decimal x ++ " ") σ.cout ++ "\n")

end list

/-- The output of `print` in the words of the specification: each element's
decimal form, in stored order, joined by single spaces, followed by a trailing
space and a newline. -/
def print_spec (s : List Int) : String :=
  " ".intercalate (s.map decimal) ++ " " ++ "\n"

/-! ## The demo routines -/

/-- State of a unit with two module-level values: the two values, in the order
of their declaration, and the characters written to standard output so far. -/
structure Globals (α : Type) where
  first : α
  second : α
  cout : String

/-- Text written by `std::cout << v` for a `signed char`: the stream inserts
the single character whose code is the value converted to `unsigned char`. -/
def put_signed_char (v : Int) : String :=
  String.singleton (Char.ofNat (to_unsigned SCHAR_BITS v).toNat)

namespace char16_t

/-- State at program start: `u16char` and `u16letter` hold their initializers,
nothing written. -/
def initial : Globals Int :=
  Globals.mk u16char u16letter ""

/-- Models `void demo_char16_t()`: the local `v` is seeded from `u16char`,
reassigned to `sumar_char16_t(v, u16letter)` and written with `std::cout << v << std::endl`.
The value is promoted to `int` and written in decimal. -/
def demo_char16_t (σ : Globals Int) : Option (Globals Int) :=
  let v := σ.first
  (sumar_char16_t v σ.second).map
    (fun v => Globals.mk σ.first σ.second (σ.cout ++ decimal v ++ "\n"))

end char16_t

namespace char32_t

/-- State at program start: `u32char` and `u32letter` hold their initializers,
nothing written. -/
def initial : Globals Int :=
  Globals.mk u32char u32letter ""

/-- Models `void demo_char32_t()`: the local `v` is seeded from `u32char`,
reassigned to `sumar_char32_t(v, u32letter)` and written with `std::cout << v << std::endl`.
The value is promoted to `unsigned int` and written in decimal. -/
def demo_char32_t (σ : Globals Int) : Option (Globals Int) :=
  let v := σ.first
  (sumar_char32_t v σ.second).map
    (fun v => Globals.mk σ.first σ.second (σ.cout ++ decimal v ++ "\n"))

end char32_t

namespace signed_char

/-- State at program start: `sc` and `offset` hold their initializers,
nothing written. -/
def initial : Globals Int :=
  Globals.mk sc offset ""

/-- Models `void demo_signed_char()`: the local `v` is seeded from `sc`,
reassigned to `sumar_signed char(v, offset)` and written with `std::cout << v << std::endl`.
The inserter for `signed char` writes a character. -/
def demo_signed_char (σ : Globals Int) : Option (Globals Int) :=
  let v := σ.first
  (sumar_signed_char v σ.second).map
    (fun v => Globals.mk σ.first σ.second (σ.cout ++ put_signed_char v ++ "\n"))

end signed_char

namespace size_t

/-- State at program start: `size` and `length` hold their initializers,
nothing written. -/
def initial : Globals Int :=
  Globals.mk size length ""

/-- Models `void demo_size_t()`: the local `v` is seeded from `size`,
reassigned to `sumar_size_t(v, length)` and written with `std::cout << v << std::endl`. -/
def demo_size_t (M : DataModel) (σ : Globals Int) : Option (Globals Int) :=
  let v := σ.first
  (sumar_size_t M v σ.second).map
    (fun v => Globals.mk σ.first σ.second (σ.cout ++ decimal v ++ "\n"))

end size_t

namespace unsigned_int

/-- State at program start: `uid` and `len` hold their initializers,
nothing written. -/
def initial : Globals Int :=
  Globals.mk uid len ""

/-- Models `void demo_unsigned_int()`: the local `v` is seeded from `uid`,
reassigned to `sumar_unsigned int(v, len)` and written with `std::cout << v << std::endl`. -/
def demo_unsigned_int (σ : Globals Int) : Option (Globals Int) :=
  let v := σ.first
  (sumar_unsigned_int v σ.second).map
    (fun v => Globals.mk σ.first σ.second (σ.cout ++ decimal v ++ "\n"))

end unsigned_int

namespace unsigned_long

/-- State at program start: `utime` and `usize` hold their initializers,
nothing written. -/
def initial : Globals Int :=
  Globals.mk utime usize ""

/-- Models `void demo_unsigned_long()`: the local `v` is seeded from `utime`,
reassigned to `sumar_unsigned long(v, usize)` and written with `std::cout << v << std::endl`. -/
def demo_unsigned_long (M : DataModel) (σ : Globals Int) : Option (Globals Int) :=
  let v := σ.first
  (sumar_unsigned_long M v σ.second).map
    (fun v => Globals.mk σ.first σ.second (σ.cout ++ decimal v ++ "\n"))

end unsigned_long

namespace unsigned_long_long

/-- State at program start: `ullcount` and `ullindex` hold their initializers,
nothing written. -/
def initial : Globals Int :=
  Globals.mk ullcount ullindex ""

/-- Models `void demo_unsigned_long_long()`: the local `v` is seeded from `ullcount`,
reassigned to `sumar_unsigned long long(v, ullindex)` and written with `std::cout << v << std::endl`. -/
def demo_unsigned_long_long (σ : Globals Int) : Option (Globals Int) :=
  let v := σ.first
  (sumar_unsigned_long_long v σ.second).map
    (fun v => Globals.mk σ.first σ.second (σ.cout ++ decimal v ++ "\n"))

end unsigned_long_long

namespace unsigned_short

/-- State at program start: `usmall` and `ushort` hold their initializers,
nothing written. -/
def initial : Globals Int :=
  Globals.mk usmall ushort ""

/-- Models `void demo_unsigned_short()`: the local `v` is seeded from `usmall`,
reassigned to `sumar_unsigned short(v, ushort)` and written with `std::cout << v << std::endl`. -/
def demo_unsigned_short (σ : Globals Int) : Option (Globals Int) :=
  let v := σ.first
  (sumar_unsigned_short v σ.second).map
    (fun v => Globals.mk σ.first σ.second (σ.cout ++ decimal v ++ "\n"))

end unsigned_short

/-- The `demo_T` routine of the unit. -/
def IntUnit.demo (M : DataModel) : IntUnit → Globals Int → Option (Globals Int)
  | IntUnit.char16_t => char16_t.demo_char16_t
  | IntUnit.char32_t => char32_t.demo_char32_t
  | IntUnit.signed_char => signed_char.demo_signed_char
  | IntUnit.size_t => size_t.demo_size_t M
  | IntUnit.unsigned_int => unsigned_int.demo_unsigned_int
  | IntUnit.unsigned_long => unsigned_long.demo_unsigned_long M
  | IntUnit.unsigned_long_long => unsigned_long_long.demo_unsigned_long_long
  | IntUnit.unsigned_short => unsigned_short.demo_unsigned_short

/-- The state of the unit at program start. -/
def IntUnit.initial : IntUnit → Globals Int
  | IntUnit.char16_t => char16_t.initial
  | IntUnit.char32_t => char32_t.initial
  | IntUnit.signed_char => signed_char.initial
  | IntUnit.size_t => size_t.initial
  | IntUnit.unsigned_int => unsigned_int.initial
  | IntUnit.unsigned_long => unsigned_long.initial
  | IntUnit.unsigned_long_long => unsigned_long_long.initial
  | IntUnit.unsigned_short => unsigned_short.initial

namespace long_double

/-- State at program start: `precisa` and `ld` hold their initializers, nothing
written. -/
def initial : Globals ℚ :=
  Globals.mk precisa ld ""

/-- Models `void demo_long_double()`: the local `v` is seeded from `precisa`,
reassigned to `sumar_long double(v, ld)` and written with
`std::cout << v << std::endl`. The text that the stream writes for a
`long double` under the default format flags is the parameter
`put_long_double`. -/
def demo_long_double (F : LongDoubleFormat) (put_long_double : ℚ → String)
    (σ : Globals ℚ) : Globals ℚ :=
  let v := σ.first
  let v := sumar_long_double F v σ.second
  Globals.mk σ.first σ.second (σ.cout ++ put_long_double v ++ "\n")

end long_double

namespace std_string

/-- State at program start: `name` and `route` hold their initializers, nothing
written. -/
def initial : Globals String :=
  Globals.mk name route ""

/-- Models `void demo_std_string()`: `res` is `concatenar(name, route)` and is
written with `std::cout << res << std::endl`. -/
def demo_std_string (σ : Globals String) : Globals String :=
  let res := concatenar σ.first σ.second
  Globals.mk σ.first σ.second (σ.cout ++ res ++ "\n")

end std_string

namespace std_wstring

/-- State at program start: `wname` and `wtext` hold their initializers,
nothing written. -/
def initial : Globals String :=
  Globals.mk wname wtext ""

/-- Models `void demo_std_wstring()`: `res` is `concatenar(wname, wtext)` and
is written with `std::cout << res << std::endl`; the characters of the string
are taken as the text written. -/
def demo_std_wstring (σ : Globals String) : Globals String :=
  let res := concatenar σ.first σ.second
  Globals.mk σ.first σ.second (σ.cout ++ res ++ "\n")

end std_wstring

namespace string

/-- State at program start: `nombre` and `path` hold their initializers,
nothing written. -/
def initial : Globals String :=
  Globals.mk nombre path ""

/-- Models `void demo_string()`: `res` is `concatenar(nombre, path)` and is
written with `std::cout << res << std::endl`. -/
def demo_string (σ : Globals String) : Globals String :=
  let res := concatenar σ.first σ.second
  Globals.mk σ.first σ.second (σ.cout ++ res ++ "\n")

end string

/-! ## Properties of the integer units -/

/-- An unsigned type narrower than `int`: when the exact result fits `int` the
value returned is the exact result modulo `2 ^ w`. -/
theorem unsigned_return_promoted (w : Nat) (op : Int → Int → Int) (a b : Int)
    (hw : w < INT_BITS) (hlo : INT_MIN ≤ op a b) (hhi : op a b ≤ INT_MAX) :
    unsigned_return w op a b = some (op a b % 2 ^ w) := by
  simp [unsigned_return, int_result, to_unsigned, hw, hlo, hhi]

/-- A 16-bit unsigned type: whether or not the exact result fits `int`, the
value returned is the exact result modulo `2 ^ 16`. -/
theorem unsigned_return_sixteen (op : Int → Int → Int) (a b : Int) :
    unsigned_return 16 op a b = some (op a b % 2 ^ 16) := by
  have hw : (16 : Nat) < INT_BITS := by decide
  have key : ∀ r : Int, (int_result r).map (to_unsigned 16) = some (r % 2 ^ 16) := by
    intro r
    by_cases h : INT_MIN ≤ r ∧ r ≤ INT_MAX
    · simp only [int_result, if_pos h, Option.map_some', to_unsigned]
    · simp only [int_result, if_neg h, Option.map_some', to_unsigned, to_signed, INT_BITS,
        Option.some.injEq]
      norm_num
      omega
  unfold unsigned_return
  rw [if_pos hw]
  exact key (op a b)

/-- An unsigned type at least as wide as `int`: the operator is evaluated
modulo `2 ^ w` and always yields a value. -/
theorem unsigned_return_wide (w : Nat) (op : Int → Int → Int) (a b : Int)
    (hw : INT_BITS ≤ w) :
    unsigned_return w op a b = some (op a b % 2 ^ w) := by
  have h : ¬ w < INT_BITS := not_lt.mpr hw
  simp [unsigned_return, to_unsigned, h]

/-- The unsigned units are those whose function is `unsigned_return` at the
width of the unit. -/
theorem IntUnit.sumar_unsigned (M : DataModel) (u : IntUnit) (a b : Int)
    (hu : u.is_unsigned = true) :
    u.sumar M a b = unsigned_return (u.bits M) (fun x y => x + y) a b := by
  cases u <;> first | rfl | simp [IntUnit.is_unsigned] at hu

/-- The unsigned units are those whose function is `unsigned_return` at the
width of the unit. -/
theorem IntUnit.multiplicar_unsigned (M : DataModel) (u : IntUnit) (a b : Int)
    (hu : u.is_unsigned = true) :
    u.multiplicar M a b = unsigned_return (u.bits M) (fun x y => x * y) a b := by
  cases u <;> first | rfl | simp [IntUnit.is_unsigned] at hu

/-- The width of an unsigned unit is 16 when it is narrower than `int`. -/
theorem IntUnit.bits_narrow (M : DataModel) (u : IntUnit)
    (hu : u.is_unsigned = true) (hw : u.bits M < INT_BITS) : u.bits M = 16 := by
  cases M <;> cases u <;>
    simp_all [IntUnit.bits, IntUnit.is_unsigned, CHAR16_BITS, CHAR32_BITS, SCHAR_BITS,
      DataModel.size_bits, INT_BITS, DataModel.ulong_bits, ULLONG_BITS, USHRT_BITS]

/-- C1: for every unsigned integer unit of width w and all operands a, b of its
type, sumar yields a value, namely (a + b) mod 2^w; hence a + b itself whenever
a + b < 2^w. -/
theorem sumar_unsigned_wraps (M : DataModel) (u : IntUnit) (a b : Int)
    (hu : u.is_unsigned = true) (ha : u.has_type M a) (hb : u.has_type M b) :
    u.sumar M a b = some ((a + b) % 2 ^ u.bits M) ∧
      (a + b < 2 ^ u.bits M → u.sumar M a b = some (a + b)) := by
  simp only [IntUnit.has_type, hu, if_true] at ha hb
  have key : u.sumar M a b = some ((a + b) % 2 ^ u.bits M) := by
    rw [IntUnit.sumar_unsigned M u a b hu]
    by_cases hw : u.bits M < INT_BITS
    · have h16 := IntUnit.bits_narrow M u hu hw
      rw [h16] at ha hb
      apply unsigned_return_promoted _ _ _ _ hw
      · show INT_MIN ≤ a + b
        simp only [INT_MIN, INT_BITS]
        norm_num at ha hb ⊢
        omega
      · show a + b ≤ INT_MAX
        simp only [INT_MAX, INT_BITS]
        norm_num at ha hb ⊢
        omega
    · exact unsigned_return_wide _ _ _ _ (not_lt.mp hw)
  refine ⟨key, fun hlt => ?_⟩
  rw [key, Int.emod_eq_of_lt (by omega) hlt]

/-- Witness of C1: `unsigned short` on LP64, `sumar(65535, 1)` wraps to 0. -/
theorem sumar_unsigned_wraps_witness :
    IntUnit.sumar DataModel.LP64 IntUnit.unsigned_short 65535 1
        = some ((65535 + 1) % 2 ^ IntUnit.bits DataModel.LP64 IntUnit.unsigned_short) ∧
      (65535 + 1) % 2 ^ IntUnit.bits DataModel.LP64 IntUnit.unsigned_short = (0 : Int) :=
  ⟨(sumar_unsigned_wraps DataModel.LP64 IntUnit.unsigned_short 65535 1 rfl
      (by decide) (by decide)).1, by decide⟩

/-- C2: for every unsigned integer unit of width w and all operands a, b, in
particular those of its type, multiplicar yields a value, namely
(a * b) mod 2^w; this includes the 16-bit units for every operand pair, whose
product is formed in `int` after promotion. -/
theorem multiplicar_unsigned_wraps (M : DataModel) (u : IntUnit) (a b : Int)
    (hu : u.is_unsigned = true) :
    u.multiplicar M a b = some ((a * b) % 2 ^ u.bits M) := by
  rw [IntUnit.multiplicar_unsigned M u a b hu]
  by_cases hw : u.bits M < INT_BITS
  · rw [IntUnit.bits_narrow M u hu hw]
    exact unsigned_return_sixteen (fun x y => x * y) a b
  · exact unsigned_return_wide _ _ _ _ (not_lt.mp hw)

/-- Witness of C2: `unsigned short` on LP64, `multiplicar(65535, 65535)` is 1
and `multiplicar(46341, 46341)` is 4633. -/
theorem multiplicar_unsigned_wraps_witness :
    IntUnit.has_type DataModel.LP64 IntUnit.unsigned_short 65535 ∧
      IntUnit.multiplicar DataModel.LP64 IntUnit.unsigned_short 65535 65535 = some 1 ∧
      unsigned_short.multiplicar_unsigned_short 46341 46341 = some 4633 ∧
      char16_t.multiplicar_char16_t 65535 65535 = some 1 :=
  ⟨by decide,
    (multiplicar_unsigned_wraps DataModel.LP64 IntUnit.unsigned_short 65535 65535 rfl).trans
      (by decide), by decide, by decide⟩

/-- C4: in every numeric unit the stored values are the base 0 and the
increment 1, and sumar applied to them yields 1; this covers the eight integer
units and the long double unit. -/
theorem sumar_stored_values (M : DataModel) (F : LongDoubleFormat) (u : IntUnit) :
    (u.base = 0 ∧ u.increment = 1 ∧ u.sumar M u.base u.increment = some 1) ∧
      (long_double.precisa = 0 ∧ long_double.ld = 1 ∧
        long_double.sumar_long_double F long_double.precisa long_double.ld = 1) := by
  refine ⟨?_, rfl, rfl, ?_⟩
  · cases M <;> cases u <;> decide
  · have h1 : (0 : ℚ) + 1 = 1 := by norm_num
    have h2 : ((1 : ℚ) = 0) = False := by norm_num
    have h3 : |(1 : ℚ)| = 1 := abs_one
    simp only [long_double.sumar_long_double, long_double.precisa, long_double.ld, fl_round,
      h1, h2, h3, if_false, Int.log_one_right]
    cases F <;>
      norm_num [LongDoubleFormat.precision, round_half_even]

/-- C5: in every integer unit multiplying a value of the type by the stored
increment returns that value, and so multiplicar(sumar(a, b), b) = sumar(a, b)
on the stored values a and b. -/
theorem multiplicar_by_increment (M : DataModel) (u : IntUnit) (x : Int)
    (hx : u.has_type M x) :
    u.multiplicar M x u.increment = some x ∧
      (u.sumar M u.base u.increment).bind (fun s => u.multiplicar M s u.increment)
        = u.sumar M u.base u.increment := by
  constructor
  · have hinc : u.increment = 1 := by cases u <;> rfl
    rw [hinc]
    by_cases hu : u.is_unsigned = true
    · simp only [IntUnit.has_type, hu, if_true] at hx
      have hmod : x * 1 % 2 ^ u.bits M = x := by
        rw [mul_one]
        exact Int.emod_eq_of_lt hx.1 hx.2
      rw [IntUnit.multiplicar_unsigned M u x 1 hu]
      by_cases hw : u.bits M < INT_BITS
      · have h16 := IntUnit.bits_narrow M u hu hw
        rw [h16] at hx
        have hlo : INT_MIN ≤ x * 1 := by
          simp only [INT_MIN, INT_BITS]
          norm_num at hx ⊢
          omega
        have hhi : x * 1 ≤ INT_MAX := by
          simp only [INT_MAX, INT_BITS]
          norm_num at hx ⊢
          omega
        rw [unsigned_return_promoted (u.bits M) (fun x y => x * y) x 1 hw hlo hhi]
        exact congrArg some hmod
      · rw [unsigned_return_wide (u.bits M) (fun x y => x * y) x 1 (not_lt.mp hw)]
        exact congrArg some hmod
    · have hsc : u = IntUnit.signed_char := by
        cases u <;> first | rfl | exact absurd rfl hu
      subst hsc
      have hx2 : -128 ≤ x ∧ x < 128 := by
        simp only [IntUnit.has_type, IntUnit.is_unsigned, IntUnit.bits, SCHAR_BITS,
          Bool.false_eq_true, if_false] at hx
        norm_num at hx
        exact hx
      have hin : INT_MIN ≤ x * 1 ∧ x * 1 ≤ INT_MAX := by
        simp only [INT_MIN, INT_MAX, INT_BITS]
        norm_num
        omega
      have hconv : to_signed SCHAR_BITS (x * 1) = x := by
        simp only [to_signed, SCHAR_BITS]
        norm_num
        omega
      simp only [IntUnit.multiplicar, signed_char.multiplicar_signed_char, signed_char_return,
        int_result, if_pos hin, Option.map_some', hconv]
  · cases M <;> cases u <;> decide

/-- Witness of C5: the signed char unit at its smallest value. -/
theorem multiplicar_by_increment_witness :
    IntUnit.multiplicar DataModel.LP64 IntUnit.signed_char (-128)
        (IntUnit.increment IntUnit.signed_char) = some (-128) :=
  (multiplicar_by_increment DataModel.LP64 IntUnit.signed_char (-128) (by decide)).1

/-- C6: in every integer unit sumar is commutative, for all operands. -/
theorem sumar_comm (M : DataModel) (u : IntUnit) (a b : Int) :
    u.sumar M a b = u.sumar M b a := by
  cases u <;>
    simp only [IntUnit.sumar, char16_t.sumar_char16_t, char32_t.sumar_char32_t,
      signed_char.sumar_signed_char, size_t.sumar_size_t, unsigned_int.sumar_unsigned_int,
      unsigned_long.sumar_unsigned_long, unsigned_long_long.sumar_unsigned_long_long,
      unsigned_short.sumar_unsigned_short, unsigned_return, signed_char_return,
      Int.add_comm a b]

/-! ## Properties of the text units -/

/-- Repetition turns a sum of counts into a concatenation. -/
theorem repeated_add (w : String) (m k : Nat) :
    repeated w (m + k) = repeated w m ++ repeated w k := by
  induction m with
  | zero => simp [repeated]
  | succ m ih =>
    rw [Nat.succ_add]
    simp only [repeated, ih, String.append_assoc]

/-- Two equal concatenations split at a common middle part. -/
theorem string_append_eq_append (a b c d : String) (h : a ++ b = c ++ d) :
    (∃ e, c = a ++ e ∧ b = e ++ d) ∨ (∃ e, a = c ++ e ∧ d = e ++ b) := by
  have hd : a.data ++ b.data = c.data ++ d.data := by
    rw [← String.data_append, ← String.data_append, h]
  rcases List.append_eq_append_iff.mp hd with ⟨e, h1, h2⟩ | ⟨e, h1, h2⟩
  · exact Or.inl ⟨String.mk e, String.ext (by rw [String.data_append, h1]),
      String.ext (by rw [String.data_append, h2])⟩
  · exact Or.inr ⟨String.mk e, String.ext (by rw [String.data_append, h1]),
      String.ext (by rw [String.data_append, h2])⟩

/-- A string of length zero is the empty string. -/
theorem string_eq_empty_of_length (a : String) (h : a.length = 0) : a = "" :=
  String.ext (List.length_eq_zero.mp h)

/-- Two strings that commute under concatenation repeat a common string; the
bound `n` on the total length drives the induction. -/
theorem commuting_strings_repeat (n : Nat) :
    ∀ a b : String, a.length + b.length ≤ n → a ++ b = b ++ a →
      ∃ w m k, a = repeated w m ∧ b = repeated w k := by
  induction n with
  | zero =>
    intro a b hlen _
    have ha : a = "" := string_eq_empty_of_length a (by omega)
    have hb : b = "" := string_eq_empty_of_length b (by omega)
    exact ⟨"", 0, 0, ha, hb⟩
  | succ n ih =>
    intro a b hlen hcomm
    by_cases ha : a.length = 0
    · exact ⟨b, 0, 1, string_eq_empty_of_length a ha, by simp [repeated]⟩
    by_cases hb : b.length = 0
    · exact ⟨a, 1, 0, by simp [repeated], string_eq_empty_of_length b hb⟩
    rcases string_append_eq_append a b b a hcomm with ⟨e, h1, h2⟩ | ⟨e, h1, h2⟩
    · have hlb : b.length = a.length + e.length := by
        rw [h1, String.length_append]
      obtain ⟨w, m, k, hm, hk⟩ := ih a e (by omega) (h1.symm.trans h2)
      refine ⟨w, m, m + k, hm, ?_⟩
      rw [repeated_add, ← hm, ← hk]
      exact h1
    · have hla : a.length = b.length + e.length := by
        rw [h1, String.length_append]
      obtain ⟨w, m, k, hm, hk⟩ := ih b e (by omega) (h1.symm.trans h2)
      refine ⟨w, m + k, m, ?_, hm⟩
      rw [repeated_add, ← hm, ← hk]
      exact h1

/-- Concatenation of two strings commutes exactly when both repeat a common
string. -/
theorem append_comm_iff_repeated (a b : String) :
    a ++ b = b ++ a ↔ ∃ w m k, a = repeated w m ∧ b = repeated w k := by
  constructor
  · exact commuting_strings_repeat (a.length + b.length) a b (le_refl _)
  · rintro ⟨w, m, k, rfl, rfl⟩
    rw [← repeated_add, ← repeated_add, Nat.add_comm]

/-- C3: concatenar returns a followed by b: the length is |a| + |b|, the first
|a| characters are a and the remaining ones are b; on the stored values of the
three text units it yields nameroute, nombrepath and wnamewtext. -/
theorem concatenar_is_append (a b : String) :
    ((std_string.concatenar a b).length = a.length + b.length ∧
        (std_string.concatenar a b).data.take a.length = a.data ∧
        (std_string.concatenar a b).data.drop a.length = b.data) ∧
      ((string.concatenar a b).length = a.length + b.length ∧
        (string.concatenar a b).data.take a.length = a.data ∧
        (string.concatenar a b).data.drop a.length = b.data) ∧
      ((std_wstring.concatenar a b).length = a.length + b.length ∧
        (std_wstring.concatenar a b).data.take a.length = a.data ∧
        (std_wstring.concatenar a b).data.drop a.length = b.data) ∧
      std_string.concatenar std_string.name std_string.route = "nameroute" ∧
      string.concatenar string.nombre string.path = "nombrepath" ∧
      std_wstring.concatenar std_wstring.wname std_wstring.wtext = "wnamewtext" := by
  have key : (a ++ b).length = a.length + b.length ∧
      (a ++ b).data.take a.length = a.data ∧ (a ++ b).data.drop a.length = b.data :=
    ⟨String.length_append a b,
      by rw [String.data_append]; exact List.take_left a.data b.data,
      by rw [String.data_append]; exact List.drop_left a.data b.data⟩
  exact ⟨key, key, key, by decide, by decide, by decide⟩

/-- C7, counterexample: the distinct strings x and xx give the same result in
both concatenation orders. -/
theorem concatenar_commutes_on_distinct :
    "x" ≠ "xx" ∧ std_string.concatenar "x" "xx" = std_string.concatenar "xx" "x" ∧
      std_wstring.concatenar "x" "xx" = std_wstring.concatenar "xx" "x" := by
  decide

/-- C7, amended: concatenar(a, b) equals concatenar(b, a) exactly when a and b
are both repetitions of one common string (which covers a == b and an empty
operand); for every other pair the two orders give different results. -/
theorem concatenar_comm_iff (a b : String) :
    (std_string.concatenar a b = std_string.concatenar b a ↔
        ∃ w m k, a = repeated w m ∧ b = repeated w k) ∧
      (std_wstring.concatenar a b = std_wstring.concatenar b a ↔
        ∃ w m k, a = repeated w m ∧ b = repeated w k) ∧
      (string.concatenar a b = string.concatenar b a ↔
        ∃ w m k, a = repeated w m ∧ b = repeated w k) :=
  ⟨append_comm_iff_repeated a b, append_comm_iff_repeated a b, append_comm_iff_repeated a b⟩

/-- C8: on the stored pair of each text unit the two concatenation orders
differ. -/
theorem concatenar_stored_not_comm :
    std_string.concatenar std_string.name std_string.route
        ≠ std_string.concatenar std_string.route std_string.name ∧
      string.concatenar string.nombre string.path
        ≠ string.concatenar string.path string.nombre ∧
      std_wstring.concatenar std_wstring.wname std_wstring.wtext
        ≠ std_wstring.concatenar std_wstring.wtext std_wstring.wname := by
  decide

/-! ## Properties of the container units -/

/-- A digit character denotes its digit. -/
theorem digit_toNat (d : Nat) (h : d < 10) : (digit d).toNat - 48 = d := by
  interval_cases d <;> decide

/-- The fuel given by `decimal` suffices: the digits produced for `n` with any
fuel above `n` denote `n`. -/
theorem digits_value_nat_digits (fuel : Nat) :
    ∀ n : Nat, n < fuel → digits_value (nat_digits fuel n) = n := by
  induction fuel with
  | zero => intro n h; omega
  | succ fuel ih =>
    intro n h
    by_cases h10 : n < 10
    · simp only [nat_digits, if_pos h10, digits_value, List.foldl_cons, List.foldl_nil]
      rw [digit_toNat n h10]
      omega
    · have hrec := ih (n / 10) (by omega)
      simp only [digits_value] at hrec
      simp only [nat_digits, if_neg h10, digits_value, List.foldl_append, List.foldl_cons,
        List.foldl_nil, hrec]
      rw [digit_toNat (n % 10) (Nat.mod_lt n (by decide))]
      omega

/-- Appending a list of strings one by one to an accumulator appends their
concatenation. -/
theorem foldl_append_init (l : List String) (init : String) :
    l.foldl (fun r t => r ++ t) init = init ++ l.foldl (fun r t => r ++ t) "" := by
  induction l generalizing init with
  | nil => simp
  | cons a l ih =>
    rw [List.foldl_cons, List.foldl_cons, ih (init ++ a), ih ("" ++ a), String.empty_append,
      String.append_assoc]

/-- Joining a list of strings peels off its head. -/
theorem string_join_cons (a : String) (l : List String) :
    String.join (a :: l) = a ++ String.join l := by
  show (a :: l).foldl (fun r t => r ++ t) "" = a ++ l.foldl (fun r t => r ++ t) ""
  rw [List.foldl_cons, foldl_append_init, String.empty_append]

/-- The loop of print appends to the stream, in stored order, the text of each
element. -/
theorem foldl_write (f : Int → String) (s : List Int) (out : String) :
    s.foldl (fun o x => o ++ f x) out = out ++ String.join (s.map f) := by
  induction s generalizing out with
  | nil => simp [String.join]
  | cons x s ih =>
    rw [List.foldl_cons, ih, List.map_cons, string_join_cons, String.append_assoc]

/-- Joining with a separator and adding one more separator is the same as
ending every item with the separator. -/
theorem intercalate_go_append (sep : String) (l : List String) (acc : String) :
    String.intercalate.go acc sep l ++ sep
      = acc ++ sep ++ String.join (l.map (fun t => t ++ sep)) := by
  induction l generalizing acc with
  | nil => simp [String.intercalate.go, String.join]
  | cons a l ih =>
    rw [List.map_cons, string_join_cons]
    show String.intercalate.go (acc ++ sep ++ a) sep l ++ sep = _
    rw [ih]
    simp only [String.append_assoc]

/-- The words of the specification agree with the loop on a non-empty
sequence. -/
theorem print_spec_cons (x : Int) (s : List Int) :
    print_spec (x :: s) = String.join ((x :: s).map (fun y => decimal y ++ " ")) ++ "\n" := by
  have h := intercalate_go_append " " (s.map decimal) (decimal x)
  rw [List.map_map] at h
  show String.intercalate.go (decimal x) " " (s.map decimal) ++ " " ++ "\n" = _
  rw [h, List.map_cons, string_join_cons]
  rfl

/-- C9: from the initial, empty sequence one call of fill leaves exactly the
literal elements in the literal order: datos is [1, 2, 3] and lista is
[10, 20]. -/
theorem fill_from_initial :
    vector.initial.datos = [] ∧ list.initial.lista = [] ∧
      (vector.fill_datos vector.initial).datos = [1, 2, 3] ∧
      (list.fill_lista list.initial).lista = [10, 20] := by
  decide

/-- C10, counterexample: on the empty sequence print writes only the newline,
not the space and newline that joining by spaces with a trailing space gives. -/
theorem print_empty_differs :
    (vector.print_datos (vector.State.mk [] "")).cout = "\n" ∧
      (list.print_lista (list.State.mk [] "")).cout = "\n" ∧
      print_spec [] = " \n" ∧
      (vector.print_datos (vector.State.mk [] "")).cout ≠ print_spec [] ∧
      (list.print_lista (list.State.mk [] "")).cout ≠ print_spec [] := by
  decide

/-- C10, amended: for every content of the sequence print appends to the
output each element's decimal form followed by a single space, in stored
order, and then a newline; for a non-empty sequence this is the decimal forms
joined by single spaces, followed by a trailing space and a newline, and for
the empty sequence it is the newline alone. After fill on the empty sequence
the output is 1 2 3 and 10 20, each with the trailing space and newline. -/
theorem print_output (out : String) (x : Int) (s : List Int) :
    (vector.print_datos (vector.State.mk s out)).cout
        = out ++ String.join (s.map (fun y => decimal y ++ " ")) ++ "\n" ∧
      (list.print_lista (list.State.mk s out)).cout
        = out ++ String.join (s.map (fun y => decimal y ++ " ")) ++ "\n" ∧
      (vector.print_datos (vector.State.mk (x :: s) out)).cout = out ++ print_spec (x :: s) ∧
      (list.print_lista (list.State.mk (x :: s) out)).cout = out ++ print_spec (x :: s) ∧
      (vector.print_datos (vector.State.mk [] out)).cout = out ++ "\n" ∧
      (list.print_lista (list.State.mk [] out)).cout = out ++ "\n" ∧
      (vector.print_datos (vector.fill_datos vector.initial)).cout = "1 2 3 \n" ∧
      (list.print_lista (list.fill_lista list.initial)).cout = "10 20 \n" := by
  have hloop : ∀ l : List Int,
      l.foldl (fun o y => o ++ decimal y ++ " ") out ++ "\n"
        = out ++ String.join (l.map (fun y => decimal y ++ " ")) ++ "\n" := by
    intro l
    have h := foldl_write (fun y => decimal y ++ " ") l out
    have e : (fun (o : String) (y : Int) => o ++ decimal y ++ " ")
        = (fun o y => o ++ (decimal y ++ " ")) := by
      funext o y
      exact String.append_assoc o (decimal y) " "
    rw [e, h]
  refine ⟨hloop s, hloop s, ?_, ?_, rfl, rfl, by decide, by decide⟩
  · show (x :: s).foldl (fun o y => o ++ decimal y ++ " ") out ++ "\n" = _
    rw [hloop, print_spec_cons, String.append_assoc]
  · show (x :: s).foldl (fun o y => o ++ decimal y ++ " ") out ++ "\n" = _
    rw [hloop, print_spec_cons, String.append_assoc]

/-- The text that print appends to the stream: the loop output after the
earlier output, then the line terminator. -/
theorem print_loop (s : List Int) (out : String) :
    s.foldl (fun o y => o ++ decimal y ++ " ") out ++ "\n"
      = out ++ (String.join (s.map (fun y => decimal y ++ " ")) ++ "\n") := by
  have e : (fun (o : String) (y : Int) => o ++ decimal y ++ " ")
      = (fun o y => o ++ (decimal y ++ " ")) := by
    funext o y
    exact String.append_assoc o (decimal y) " "
  rw [e, foldl_write (fun y => decimal y ++ " ") s out, String.append_assoc]

/-- C11: for every content of the sequence print leaves the sequence as it
was, and a second call of print in a row writes the same text as the first. -/
theorem print_keeps_sequence (s : List Int) (out : String) :
    ((vector.print_datos (vector.State.mk s out)).datos = s ∧
        ∃ w, (vector.print_datos (vector.State.mk s out)).cout = out ++ w ∧
          (vector.print_datos (vector.print_datos (vector.State.mk s out))).cout
            = out ++ w ++ w) ∧
      ((list.print_lista (list.State.mk s out)).lista = s ∧
        ∃ w, (list.print_lista (list.State.mk s out)).cout = out ++ w ∧
          (list.print_lista (list.print_lista (list.State.mk s out))).cout
            = out ++ w ++ w) := by
  have h1 := print_loop s out
  have h2 := print_loop s (out ++ (String.join (s.map (fun y => decimal y ++ " ")) ++ "\n"))
  refine ⟨⟨rfl, String.join (s.map (fun y => decimal y ++ " ")) ++ "\n", h1, ?_⟩,
    ⟨rfl, String.join (s.map (fun y => decimal y ++ " ")) ++ "\n", h1, ?_⟩⟩
  · show s.foldl (fun o y => o ++ decimal y ++ " ")
        (s.foldl (fun o y => o ++ decimal y ++ " ") out ++ "\n") ++ "\n" = _
    rw [h1, h2]
  · show s.foldl (fun o y => o ++ decimal y ++ " ")
        (s.foldl (fun o y => o ++ decimal y ++ " ") out ++ "\n") ++ "\n" = _
    rw [h1, h2]

/-! ## Properties of the demo routines -/

/-- C12, at the failing input: from the stored values 0 and 1 the demo of the
signed char unit writes the character with code 1 and the line terminator,
not the decimal text 1; the demos of the other integer units write 1, the
demo of the long double unit writes the stream text of the value 1, and the
demos of the text units write the concatenated strings, each followed by the
line terminator. -/
theorem demo_signed_char_writes_character (M : DataModel) (F : LongDoubleFormat)
    (put_long_double : ℚ → String) :
    (signed_char.demo_signed_char signed_char.initial).map Globals.cout
        = some (String.singleton (Char.ofNat 1) ++ "\n") ∧
      (signed_char.demo_signed_char signed_char.initial).map Globals.cout ≠ some "1\n" ∧
      (char16_t.demo_char16_t char16_t.initial).map Globals.cout = some "1\n" ∧
      (char32_t.demo_char32_t char32_t.initial).map Globals.cout = some "1\n" ∧
      (size_t.demo_size_t M size_t.initial).map Globals.cout = some "1\n" ∧
      (unsigned_int.demo_unsigned_int unsigned_int.initial).map Globals.cout = some "1\n" ∧
      (unsigned_long.demo_unsigned_long M unsigned_long.initial).map Globals.cout
        = some "1\n" ∧
      (unsigned_long_long.demo_unsigned_long_long unsigned_long_long.initial).map Globals.cout
        = some "1\n" ∧
      (unsigned_short.demo_unsigned_short unsigned_short.initial).map Globals.cout
        = some "1\n" ∧
      (long_double.demo_long_double F put_long_double long_double.initial).cout
        = put_long_double 1 ++ "\n" ∧
      (std_string.demo_std_string std_string.initial).cout = "nameroute\n" ∧
      (string.demo_string string.initial).cout = "nombrepath\n" ∧
      (std_wstring.demo_std_wstring std_wstring.initial).cout = "wnamewtext\n" := by
  have hld : long_double.sumar_long_double F long_double.precisa long_double.ld = 1 := by
    have h1 : (0 : ℚ) + 1 = 1 := by norm_num
    have h2 : ((1 : ℚ) = 0) = False := by norm_num
    have h3 : |(1 : ℚ)| = 1 := abs_one
    simp only [long_double.sumar_long_double, long_double.precisa, long_double.ld, fl_round,
      h1, h2, h3, if_false, Int.log_one_right]
    cases F <;>
      norm_num [LongDoubleFormat.precision, round_half_even]
  refine ⟨by decide, by decide, by decide, by decide, by cases M <;> decide, by decide,
    by cases M <;> decide, by decide, by decide, ?_, by decide, by decide, by decide⟩
  show "" ++ put_long_double (long_double.sumar_long_double F long_double.precisa
    long_double.ld) ++ "\n" = _
  rw [hld, String.empty_append]

/-- Every integer unit yields a sum on operands of its type. -/
theorem IntUnit.sumar_total (M : DataModel) (u : IntUnit) (a b : Int)
    (ha : u.has_type M a) (hb : u.has_type M b) : ∃ v, u.sumar M a b = some v := by
  by_cases hu : u.is_unsigned = true
  · simp only [IntUnit.has_type, hu, if_true] at ha hb
    rw [IntUnit.sumar_unsigned M u a b hu]
    by_cases hw : u.bits M < INT_BITS
    · have h16 := IntUnit.bits_narrow M u hu hw
      rw [h16] at ha hb
      refine ⟨_, unsigned_return_promoted _ _ _ _ hw ?_ ?_⟩
      · show INT_MIN ≤ a + b
        simp only [INT_MIN, INT_BITS]
        norm_num at ha hb ⊢
        omega
      · show a + b ≤ INT_MAX
        simp only [INT_MAX, INT_BITS]
        norm_num at ha hb ⊢
        omega
    · exact ⟨_, unsigned_return_wide _ _ _ _ (not_lt.mp hw)⟩
  · have hsc : u = IntUnit.signed_char := by
      cases u <;> first | rfl | exact absurd rfl hu
    subst hsc
    simp only [IntUnit.has_type, IntUnit.is_unsigned, IntUnit.bits, SCHAR_BITS,
      Bool.false_eq_true, if_false] at ha hb
    norm_num at ha hb
    have hin : INT_MIN ≤ a + b ∧ a + b ≤ INT_MAX := by
      simp only [INT_MIN, INT_MAX, INT_BITS]
      norm_num
      omega
    exact ⟨to_signed SCHAR_BITS (a + b), by
      simp only [IntUnit.sumar, signed_char.sumar_signed_char, signed_char_return,
        int_result, if_pos hin, Option.map_some']⟩

/-- The demo of every integer unit maps the sum of the two module-level values
to a state with the same two values and one more line of output. -/
theorem IntUnit.demo_shape (M : DataModel) (u : IntUnit) :
    ∃ put : Int → String, ∀ σ : Globals Int,
      u.demo M σ = (u.sumar M σ.first σ.second).map
        (fun v => Globals.mk σ.first σ.second (σ.cout ++ put v ++ "\n")) := by
  cases u
  case signed_char => exact ⟨put_signed_char, fun _ => rfl⟩
  all_goals exact ⟨decimal, fun _ => rfl⟩

/-- C13: every demo routine leaves the two module-level values of its unit as
they were, whatever they are, and a second run in a row writes the same text
as the first. -/
theorem demo_twice (M : DataModel) (F : LongDoubleFormat) (put_long_double : ℚ → String)
    (u : IntUnit) (σ : Globals Int) (τ : Globals ℚ) (ρ : Globals String)
    (h1 : u.has_type M σ.first) (h2 : u.has_type M σ.second) :
    (∃ w, u.demo M σ = some (Globals.mk σ.first σ.second (σ.cout ++ w)) ∧
        u.demo M (Globals.mk σ.first σ.second (σ.cout ++ w))
          = some (Globals.mk σ.first σ.second (σ.cout ++ w ++ w))) ∧
      (∃ w, long_double.demo_long_double F put_long_double τ
          = Globals.mk τ.first τ.second (τ.cout ++ w) ∧
        long_double.demo_long_double F put_long_double
            (Globals.mk τ.first τ.second (τ.cout ++ w))
          = Globals.mk τ.first τ.second (τ.cout ++ w ++ w)) ∧
      (∃ w, std_string.demo_std_string ρ = Globals.mk ρ.first ρ.second (ρ.cout ++ w) ∧
        std_string.demo_std_string (Globals.mk ρ.first ρ.second (ρ.cout ++ w))
          = Globals.mk ρ.first ρ.second (ρ.cout ++ w ++ w)) ∧
      (∃ w, std_wstring.demo_std_wstring ρ = Globals.mk ρ.first ρ.second (ρ.cout ++ w) ∧
        std_wstring.demo_std_wstring (Globals.mk ρ.first ρ.second (ρ.cout ++ w))
          = Globals.mk ρ.first ρ.second (ρ.cout ++ w ++ w)) ∧
      (∃ w, string.demo_string ρ = Globals.mk ρ.first ρ.second (ρ.cout ++ w) ∧
        string.demo_string (Globals.mk ρ.first ρ.second (ρ.cout ++ w))
          = Globals.mk ρ.first ρ.second (ρ.cout ++ w ++ w)) := by
  refine ⟨?_, ?_, ?_, ?_, ?_⟩
  · obtain ⟨put, hd⟩ := IntUnit.demo_shape M u
    obtain ⟨v, hv⟩ := IntUnit.sumar_total M u σ.first σ.second h1 h2
    refine ⟨put v ++ "\n", ?_, ?_⟩
    · rw [hd, hv, Option.map_some', String.append_assoc]
    · rw [hd]
      simp only [hv, Option.map_some', String.append_assoc]
  · refine ⟨put_long_double (long_double.sumar_long_double F τ.first τ.second) ++ "\n", ?_, ?_⟩
    · simp only [long_double.demo_long_double, String.append_assoc]
    · simp only [long_double.demo_long_double, String.append_assoc]
  · refine ⟨std_string.concatenar ρ.first ρ.second ++ "\n", ?_, ?_⟩
    · simp only [std_string.demo_std_string, String.append_assoc]
    · simp only [std_string.demo_std_string, String.append_assoc]
  · refine ⟨std_wstring.concatenar ρ.first ρ.second ++ "\n", ?_, ?_⟩
    · simp only [std_wstring.demo_std_wstring, String.append_assoc]
    · simp only [std_wstring.demo_std_wstring, String.append_assoc]
  · refine ⟨string.concatenar ρ.first ρ.second ++ "\n", ?_, ?_⟩
    · simp only [string.demo_string, String.append_assoc]
    · simp only [string.demo_string, String.append_assoc]

/-- Witness of C13: the size_t unit on LP64 with the values 5 and 7 writes the
line 12 on each of two runs in a row. -/
theorem demo_twice_witness :
    ∃ w, size_t.demo_size_t DataModel.LP64 (Globals.mk 5 7 "")
        = some (Globals.mk 5 7 ("" ++ w)) ∧
      size_t.demo_size_t DataModel.LP64 (Globals.mk 5 7 ("" ++ w))
        = some (Globals.mk 5 7 ("" ++ w ++ w)) :=
  (demo_twice DataModel.LP64 LongDoubleFormat.x87_extended (fun _ => "") IntUnit.size_t
    (Globals.mk 5 7 "") (Globals.mk 0 1 "") (Globals.mk "name" "route" "")
    (by decide) (by decide)).1

/-! ## Further properties of the containers and of signed char -/

/-- C14: for every content s of the sequence fill_datos leaves s followed by
1, 2, 3 and fill_lista leaves s followed by 10, 20: the earlier elements keep
their positions and the length grows by 3 and by 2; fill is not idempotent,
two calls of fill_datos from the empty sequence leave 1, 2, 3, 1, 2, 3. -/
theorem fill_appends (s : List Int) (out : String) :
    ((vector.fill_datos (vector.State.mk s out)).datos = s ++ [1, 2, 3] ∧
        (vector.fill_datos (vector.State.mk s out)).datos.length = s.length + 3 ∧
        (vector.fill_datos (vector.State.mk s out)).datos.take s.length = s) ∧
      ((list.fill_lista (list.State.mk s out)).lista = s ++ [10, 20] ∧
        (list.fill_lista (list.State.mk s out)).lista.length = s.length + 2 ∧
        (list.fill_lista (list.State.mk s out)).lista.take s.length = s) ∧
      (vector.fill_datos (vector.fill_datos vector.initial)).datos = [1, 2, 3, 1, 2, 3] ∧
      (vector.fill_datos (vector.fill_datos vector.initial)).datos
        ≠ (vector.fill_datos vector.initial).datos := by
  have hv : (vector.fill_datos (vector.State.mk s out)).datos = s ++ [1, 2, 3] := by
    simp [vector.fill_datos, push_back]
  have hl : (list.fill_lista (list.State.mk s out)).lista = s ++ [10, 20] := by
    simp [list.fill_lista, push_back]
  refine ⟨⟨hv, ?_, ?_⟩, ⟨hl, ?_, ?_⟩, by decide, by decide⟩
  · rw [hv, List.length_append]
    rfl
  · rw [hv]
    exact List.take_left s [1, 2, 3]
  · rw [hl, List.length_append]
    rfl
  · rw [hl]
    exact List.take_left s [10, 20]

/-- The product of two values of signed char fits `int`. -/
theorem signed_char_product_bounds (a b : Int) (ha : -128 ≤ a) (ha2 : a ≤ 127)
    (hb : -128 ≤ b) (hb2 : b ≤ 127) : -16384 ≤ a * b ∧ a * b ≤ 16384 := by
  constructor
  · nlinarith [mul_nonneg (sub_nonneg.mpr ha) (sub_nonneg.mpr hb2),
      mul_nonneg (sub_nonneg.mpr ha2) (sub_nonneg.mpr hb)]
  · nlinarith [mul_nonneg (sub_nonneg.mpr ha) (sub_nonneg.mpr hb),
      mul_nonneg (sub_nonneg.mpr ha2) (sub_nonneg.mpr hb2)]

/-- Conversion to signed char yields the one value of the type congruent to
the converted value modulo 2^8. -/
theorem to_signed_char_spec (r : Int) :
    -128 ≤ to_signed SCHAR_BITS r ∧ to_signed SCHAR_BITS r ≤ 127 ∧
      to_signed SCHAR_BITS r % 2 ^ 8 = r % 2 ^ 8 ∧
      ∀ r2 : Int, -128 ≤ r2 → r2 ≤ 127 → r2 % 2 ^ 8 = r % 2 ^ 8 →
        r2 = to_signed SCHAR_BITS r := by
  simp only [to_signed, SCHAR_BITS]
  norm_num
  refine ⟨by omega, by omega, by omega, ?_⟩
  intro r2 h1 h2 h3
  omega

/-- C15: for operands a, b in [-128, 127] sumar and multiplicar of the signed
char unit yield a value in [-128, 127], the only one in that range congruent
to a + b, respectively a * b, modulo 2^8. -/
theorem signed_char_wraps (a b : Int) (ha : -128 ≤ a) (ha2 : a ≤ 127)
    (hb : -128 ≤ b) (hb2 : b ≤ 127) :
    (∃ r, signed_char.sumar_signed_char a b = some r ∧ -128 ≤ r ∧ r ≤ 127 ∧
        r % 2 ^ 8 = (a + b) % 2 ^ 8 ∧
        ∀ r2 : Int, -128 ≤ r2 → r2 ≤ 127 → r2 % 2 ^ 8 = (a + b) % 2 ^ 8 → r2 = r) ∧
      (∃ p, signed_char.multiplicar_signed_char a b = some p ∧ -128 ≤ p ∧ p ≤ 127 ∧
        p % 2 ^ 8 = (a * b) % 2 ^ 8 ∧
        ∀ p2 : Int, -128 ≤ p2 → p2 ≤ 127 → p2 % 2 ^ 8 = (a * b) % 2 ^ 8 → p2 = p) := by
  have hsum : INT_MIN ≤ a + b ∧ a + b ≤ INT_MAX := by
    simp only [INT_MIN, INT_MAX, INT_BITS]
    norm_num
    omega
  have hprod : INT_MIN ≤ a * b ∧ a * b ≤ INT_MAX := by
    have hp := signed_char_product_bounds a b ha ha2 hb hb2
    simp only [INT_MIN, INT_MAX, INT_BITS]
    norm_num
    omega
  constructor
  · refine ⟨to_signed SCHAR_BITS (a + b), ?_, to_signed_char_spec (a + b)⟩
    simp only [signed_char.sumar_signed_char, signed_char_return, int_result, if_pos hsum,
      Option.map_some']
  · refine ⟨to_signed SCHAR_BITS (a * b), ?_, to_signed_char_spec (a * b)⟩
    simp only [signed_char.multiplicar_signed_char, signed_char_return, int_result,
      if_pos hprod, Option.map_some']

/-- Witness of C15: sumar(127, 1) is -128. -/
theorem signed_char_wraps_witness :
    ∃ r, signed_char.sumar_signed_char 127 1 = some r ∧ r = -128 := by
  obtain ⟨r, hr, _⟩ :=
    (signed_char_wraps 127 1 (by decide) (by decide) (by decide) (by decide)).1
  refine ⟨r, hr, ?_⟩
  have h : signed_char.sumar_signed_char 127 1 = some (-128) := by decide
  rw [h] at hr
  exact (Option.some.inj hr).symm

/-! ## The output of print determines the sequence -/

/-- A digit character is none of the space, the newline and the minus sign. -/
theorem digit_ne_separator (d : Nat) (h : d < 10) :
    digit d ≠ ' ' ∧ digit d ≠ '\n' ∧ digit d ≠ '-' := by
  interval_cases d <;> decide

/-- Every character produced by `nat_digits` is a digit character. -/
theorem nat_digits_are_digits (fuel : Nat) :
    ∀ n : Nat, ∀ c ∈ nat_digits fuel n, ∃ d, d < 10 ∧ c = digit d := by
  induction fuel with
  | zero =>
    intro n c hc
    simp [nat_digits] at hc
  | succ fuel ih =>
    intro n c hc
    by_cases h10 : n < 10
    · simp only [nat_digits, if_pos h10, List.mem_singleton] at hc
      exact ⟨n, h10, hc⟩
    · simp only [nat_digits, if_neg h10, List.mem_append, List.mem_singleton] at hc
      rcases hc with hc | hc
      · exact ih (n / 10) c hc
      · exact ⟨n % 10, Nat.mod_lt n (by decide), hc⟩

/-- The digits of a number determine it, whatever the sufficient fuel. -/
theorem nat_digits_inj (f1 f2 n m : Nat) (h1 : n < f1) (h2 : m < f2)
    (h : nat_digits f1 n = nat_digits f2 m) : n = m := by
  have e1 := digits_value_nat_digits f1 n h1
  have e2 := digits_value_nat_digits f2 m h2
  rw [h] at e1
  exact e1.symm.trans e2

/-- The decimal form holds no space and no newline. -/
theorem decimal_no_separator (x : Int) :
    ∀ c ∈ (decimal x).data, c ≠ ' ' ∧ c ≠ '\n' := by
  intro c hc
  cases x with
  | ofNat n =>
    obtain ⟨d, hd, rfl⟩ := nat_digits_are_digits (n + 1) n c hc
    exact ⟨(digit_ne_separator d hd).1, (digit_ne_separator d hd).2.1⟩
  | negSucc n =>
    have hc2 : c = '-' ∨ c ∈ nat_digits (n + 2) (n + 1) := by
      simpa [decimal, String.data_append] using hc
    rcases hc2 with rfl | hc2
    · exact ⟨by decide, by decide⟩
    · obtain ⟨d, hd, rfl⟩ := nat_digits_are_digits (n + 2) (n + 1) c hc2
      exact ⟨(digit_ne_separator d hd).1, (digit_ne_separator d hd).2.1⟩

/-- The decimal form determines the integer. -/
theorem decimal_inj (x y : Int) (h : decimal x = decimal y) : x = y := by
  have hd : (decimal x).data = (decimal y).data := by rw [h]
  cases x with
  | ofNat n =>
    cases y with
    | ofNat m =>
      have e : nat_digits (n + 1) n = nat_digits (m + 1) m := hd
      rw [nat_digits_inj (n + 1) (m + 1) n m (by omega) (by omega) e]
    | negSucc m =>
      have e : nat_digits (n + 1) n = '-' :: nat_digits (m + 2) (m + 1) := by
        simpa [decimal, String.data_append] using hd
      have hmem : '-' ∈ nat_digits (n + 1) n := by
        rw [e]
        exact List.mem_cons_self _ _
      obtain ⟨d, hd10, hdc⟩ := nat_digits_are_digits (n + 1) n _ hmem
      exact absurd hdc.symm (digit_ne_separator d hd10).2.2
  | negSucc n =>
    cases y with
    | ofNat m =>
      have e : '-' :: nat_digits (n + 2) (n + 1) = nat_digits (m + 1) m := by
        simpa [decimal, String.data_append] using hd
      have hmem : '-' ∈ nat_digits (m + 1) m := by
        rw [← e]
        exact List.mem_cons_self _ _
      obtain ⟨d, hd10, hdc⟩ := nat_digits_are_digits (m + 1) m _ hmem
      exact absurd hdc.symm (digit_ne_separator d hd10).2.2
    | negSucc m =>
      have e : nat_digits (n + 2) (n + 1) = nat_digits (m + 2) (m + 1) := by
        simpa [decimal, String.data_append] using hd
      have := nat_digits_inj (n + 2) (m + 2) (n + 1) (m + 1) (by omega) (by omega) e
      have hnm : n = m := by omega
      rw [hnm]

/-- Two lists that agree up to and after the first occurrence of a separator
have the same part before it and the same part after it. -/
theorem split_at_separator (c : Char) :
    ∀ l1 l2 r1 r2 : List Char, c ∉ l1 → c ∉ l2 → l1 ++ c :: r1 = l2 ++ c :: r2 →
      l1 = l2 ∧ r1 = r2 := by
  intro l1
  induction l1 with
  | nil =>
    intro l2 r1 r2 _ h2 h
    cases l2 with
    | nil =>
      simp only [List.nil_append, List.cons.injEq, true_and] at h
      exact ⟨rfl, h⟩
    | cons y l2 =>
      simp only [List.nil_append, List.cons_append, List.cons.injEq] at h
      exact absurd (h.1 ▸ List.mem_cons_self _ _) h2
  | cons x l1 ih =>
    intro l2 r1 r2 h1 h2 h
    cases l2 with
    | nil =>
      simp only [List.nil_append, List.cons_append, List.cons.injEq] at h
      exact absurd (h.1 ▸ List.mem_cons_self _ _) h1
    | cons y l2 =>
      simp only [List.cons_append, List.cons.injEq] at h
      have h1t : c ∉ l1 := fun hm => h1 (List.mem_cons_of_mem _ hm)
      have h2t : c ∉ l2 := fun hm => h2 (List.mem_cons_of_mem _ hm)
      obtain ⟨e1, e2⟩ := ih l2 r1 r2 h1t h2t h.2
      exact ⟨by rw [h.1, e1], e2⟩

/-- The text that print writes determines the sequence. -/
theorem print_text_inj :
    ∀ s t : List Int,
      String.join (s.map (fun y => decimal y ++ " ")) ++ "\n"
        = String.join (t.map (fun y => decimal y ++ " ")) ++ "\n" → s = t := by
  intro s
  induction s with
  | nil =>
    intro t h
    cases t with
    | nil => rfl
    | cons y t =>
      exfalso
      rw [List.map_cons, string_join_cons] at h
      have hd := congrArg String.data h
      have hmem : ' ' ∈ (String.join (List.map (fun y => decimal y ++ " ") []) ++ "\n").data := by
        rw [hd]
        simp [String.data_append]
      simp [String.join, String.data_append] at hmem
  | cons x s ih =>
    intro t h
    cases t with
    | nil =>
      exfalso
      rw [List.map_cons, string_join_cons] at h
      have hd := congrArg String.data h
      have hmem : ' ' ∈ (String.join (List.map (fun y => decimal y ++ " ") []) ++ "\n").data := by
        rw [← hd]
        simp [String.data_append]
      simp [String.join, String.data_append] at hmem
    | cons y t =>
      rw [List.map_cons, string_join_cons, List.map_cons, string_join_cons] at h
      have hd := congrArg String.data h
      simp only [String.data_append, List.append_assoc] at hd
      simp only [List.singleton_append] at hd
      obtain ⟨e1, e2⟩ := split_at_separator ' ' _ _ _ _
        (fun hm => (decimal_no_separator x _ hm).1 rfl)
        (fun hm => (decimal_no_separator y _ hm).1 rfl) hd
      have hxy : x = y := decimal_inj x y (String.ext e1)
      have hst : s = t := ih t (String.ext (by simpa [String.data_append] using e2))
      rw [hxy, hst]

/-- C16: the output of print determines the sequence: when print writes the
same string for the contents s and t, after the same earlier output, then s
and t are equal. -/
theorem print_determines_sequence (s t : List Int) (out : String) :
    ((vector.print_datos (vector.State.mk s out)).cout
        = (vector.print_datos (vector.State.mk t out)).cout → s = t) ∧
      ((list.print_lista (list.State.mk s out)).cout
        = (list.print_lista (list.State.mk t out)).cout → s = t) := by
  have key : s.foldl (fun o y => o ++ decimal y ++ " ") out ++ "\n"
      = t.foldl (fun o y => o ++ decimal y ++ " ") out ++ "\n" → s = t := by
    intro h
    rw [print_loop s out, print_loop t out] at h
    have hd := congrArg String.data h
    rw [String.data_append, String.data_append] at hd
    exact print_text_inj s t (String.ext (List.append_cancel_left hd))
  exact ⟨key, key⟩

/-- Witness of C16: print writes the line 1 2 3 for both contents, which are
the same sequence. -/
theorem print_determines_sequence_witness :
    (vector.print_datos (vector.State.mk [1, 2, 3] "")).cout = "1 2 3 \n" ∧
      (vector.print_datos (vector.State.mk (push_back [1, 2] 3) "")).cout = "1 2 3 \n" ∧
      ([1, 2, 3] : List Int) = push_back [1, 2] 3 :=
  ⟨by decide, by decide,
    (print_determines_sequence [1, 2, 3] (push_back [1, 2] 3) "").1 (by decide)⟩

end Codemind
